import Mathlib

/-!
# A verification model of the `task` task runner (`src/task.go`)

This file shallowly embeds the execution engine of the task runner:
the task registry, the freshness checker (`isUpToDate`), the environment
builder (`getEnviron`), the command executor (`runCommand`), the dependency
resolver (`runDeps`) and the drivers (`RunTask`, `Run`).

Modelling conventions:

* Machine state is a `St`: the mutable process environment table (written by
  `os.Setenv`) plus an event trace recording, in chronological order, the
  observable actions of the run (log lines, spawned shell processes, output
  shown on stdout, environment writes, freshness checks, task completions,
  command starts).
* External collaborators that live outside `src/` — the variable
  substitution engine (`ReplaceVariables`, `handleVariables`), the shell
  (`execext.RunCommand`) and the filesystem (glob resolution) — are oracle
  parameters, so every theorem quantifies over their behaviour.
* The concurrent dependency fan-out of `runDeps` (errgroup) is modelled as a
  sequential linearization in an arbitrary schedule order `sched` of the
  `Deps` list; `g.Wait()`'s "wait for all units, return the first error
  observed" becomes "run every unit in schedule order, return the error of
  the earliest failing unit".  Context cancellation is cooperative in the
  source and is not observed at the `RunTask` boundary, so it is not
  modelled.
* Go `time.Time` is modelled as `Nat`, with `0` as the zero time
  (`IsZero`).  Go's nil-vs-empty map distinction for `Env` is modelled with
  `Option`; map iteration order is the list order.
* Recursion through the registry (`RunTask` → `runDeps`/`runCommand` →
  `RunTask`) is made total with a fuel parameter; exhausting fuel yields the
  distinguished error `Err.outOfFuel`.
-/

namespace TaskRunner

/-- Errors produced by the engine: `taskNotFoundError`, `taskRunError`
(which wraps a failing command's error with the owning task's name),
substitution failures, external command failures, and the fuel sentinel of
the embedding. -/
inductive Err where
  | taskNotFound (name : String)
  | taskRun (name : String) (e : Err)
  | subst (msg : String)
  | cmdFail (msg : String)
  | outOfFuel
deriving DecidableEq

/-- Observable events of a run, in chronological order.

`cmdStart depth name i` marks the beginning of command `i` of task `name`
by the `RunTask` invocation running at fuel `depth`; nested invocations run
at strictly smaller fuel, which lets theorems single out the command steps
of one particular invocation. -/
inductive Ev where
  | log (msg : String)
  | spawn (cmd : String) (dir : String) (env : Option (List String))
  | stdout (s : String)
  | setenv (k : String) (v : String)
  | freshCheck (name : String)
  | skipUpToDate (name : String)
  | taskDone (name : String)
  | cmdStart (depth : Nat) (name : String) (i : Nat)
  | cycleCheck
deriving DecidableEq

/-- Process state: the mutable environment table (`os.Setenv` /
`os.Environ`) and the chronological event trace. -/
structure St where
  penv : List (String × String)
  trace : List Ev
deriving DecidableEq

/-- Append one event to the trace. -/
def emit (e : Ev) (s : St) : St :=
  { s with trace := s.trace ++ [e] }

/-- `Task` mirrors the Go struct field for field; `Env := none` models a nil
Go map (the `t.Env == nil` check), `Vars` and a non-nil `Env` are
association lists in map-iteration order. -/
structure Task where
  Cmds : List String
  Deps : List String
  Desc : String
  Sources : List String
  Generates : List String
  Dir : String
  Vars : List (String × String)
  Set : String
  Env : Option (List (String × String))
deriving DecidableEq

/-- The Go zero value of `Task`. -/
def Task.default : Task :=
  ⟨[], [], "", [], [], "", [], "", none⟩

/-- The task registry `Tasks` (a Go map), as an association list. -/
def Reg := List (String × Task)

/-- Map lookup (`Tasks[name]`). -/
def lookupTask (reg : Reg) (name : String) : Option Task :=
  match reg with
  | [] => none
  | (k, t) :: rest => if k = name then some t else lookupTask rest name

/-- Association-list lookup for environment tables and variable maps. -/
def lookupStr (l : List (String × String)) (k : String) : Option String :=
  match l with
  | [] => none
  | (k', v) :: rest => if k' = k then some v else lookupStr rest k

/-- `os.Setenv`: overwrite the binding if the key is present, append it
otherwise. -/
def setenvList (l : List (String × String)) (k v : String) : List (String × String) :=
  match l with
  | [] => [(k, v)]
  | (k', v') :: rest =>
      if k' = k then (k', v) :: rest else (k', v') :: setenvList rest k v

/-- `os.Environ()`: the environment table rendered as `"key=value"`
strings. -/
def environStrings (l : List (String × String)) : List String :=
  l.map (fun p => p.1 ++ "=" ++ p.2)

/-- Go's `unicode.IsSpace`, restricted to the ASCII whitespace characters
(space, tab, newline, vertical tab, form feed, carriage return). -/
def isGoSpace (c : Char) : Bool :=
  c = ' ' || c = '\t' || c = '\n' || c = '\x0b' || c = '\x0c' || c = '\r'

/-- Go's `strings.TrimSpace`: remove all leading and trailing whitespace. -/
def trimSpace (s : String) : String :=
  ⟨((s.data.dropWhile isGoSpace).reverse.dropWhile isGoSpace).reverse⟩

/-- The spec's words for claim C4 say the captured output is written "after
trimming trailing whitespace"; this definition follows those words (trailing
only), to be compared against the source's `trimSpace`. -/
def trimTrailingSpace (s : String) : String :=
  ⟨(s.data.reverse.dropWhile isGoSpace).reverse⟩

/-- `strings.HasPrefix(s, "^")`. -/
def hasCaretPrefix (s : String) : Bool :=
  match s.data with
  | [] => false
  | c :: _ => c = '^'

/-- `strings.TrimPrefix(s, "^")`. -/
def trimCaretPrefix (s : String) : String :=
  if hasCaretPrefix s then ⟨s.data.drop 1⟩ else s

/-! ## Freshness checker -/

/-- A filesystem oracle: a glob pattern resolves either to an error or to
the list of modification times of the files it matches. -/
def Fs := String → Except Unit (List Nat)

/-- Resolve every pattern, concatenating the matched files' modification
times; any resolution error propagates. -/
def resolveAll (fs : Fs) : List String → Except Unit (List Nat)
  | [] => .ok []
  | p :: ps =>
    match fs p with
    | .error e => .error e
    | .ok ts =>
      match resolveAll fs ps with
      | .error e => .error e
      | .ok rest => .ok (ts ++ rest)

/-- Latest time in a list; the zero time when the list is empty. -/
def maxTime : List Nat → Nat
  | [] => 0
  | t :: ts => max t (maxTime ts)

/-- Earliest time in a list; the zero time when the list is empty. -/
def minTime : List Nat → Nat
  | [] => 0
  | [t] => t
  | t :: ts => min t (minTime ts)

/-- Modelled from the spec: `getPatternsMaxTime` (defined outside
`src/task.go`) returns the latest modification time among all files matched
by the patterns, the zero time when no file matches, and an error when
resolving any pattern fails. -/
def getPatternsMaxTime (fs : Fs) (patterns : List String) : Except Unit Nat :=
  match resolveAll fs patterns with
  | .error e => .error e
  | .ok ts => .ok (maxTime ts)

/-- Modelled from the spec: `getPatternsMinTime` (defined outside
`src/task.go`) returns the earliest modification time among all files
matched by the patterns, the zero time when no file matches, and an error
when resolving any pattern fails. -/
def getPatternsMinTime (fs : Fs) (patterns : List String) : Except Unit Nat :=
  match resolveAll fs patterns with
  | .error e => .error e
  | .ok ts => .ok (minTime ts)

/-- `Task.isUpToDate`, translated clause by clause from the source: empty
`Sources` or `Generates` means stale; an error or zero max time from the
sources means stale; an error or zero min time from the generates means
stale; otherwise up to date iff the generates' min time is strictly after
the sources' max time. -/
def Task.isUpToDate (fs : Fs) (t : Task) : Bool :=
  if t.Sources.length = 0 || t.Generates.length = 0 then false
  else
    match getPatternsMaxTime fs t.Sources with
    | .error _ => false
    | .ok sourcesMaxTime =>
      if sourcesMaxTime = 0 then false
      else
        match getPatternsMinTime fs t.Generates with
        | .error _ => false
        | .ok generatesMinTime =>
          if generatesMinTime = 0 then false
          else decide (sourcesMaxTime < generatesMinTime)

/-! ## Cycle detector -/

/-- Dependency edges of a task name in the registry. -/
def depsOf (reg : Reg) (n : String) : List String :=
  match lookupTask reg n with
  | none => []
  | some t => t.Deps

/-- Bounded reachability along dependency edges: `reachableIn reg k a b`
holds when `b` is reachable from `a` in at least one and at most `k`
edges. -/
def reachableIn (reg : Reg) : Nat → String → String → Bool
  | 0, _, _ => false
  | k + 1, a, b => (depsOf reg a).any (fun d => d = b || reachableIn reg k d b)

/-- Modelled from the spec: `HasCyclicDep` (defined outside `src/task.go`)
decides whether any task of the registry is reachable from itself via one
or more dependency edges. -/
def HasCyclicDep (reg : Reg) : Bool :=
  reg.any (fun p => reachableIn reg reg.length p.1 p.1)

/-! ## Oracles for the external collaborators -/

/-- The oracles the engine consumes:

* `replaceVariables` is the substitution engine `ReplaceVariables`
  (template, resolved variables → substituted string or error);
* `handleVariables` is `Task.handleVariables` (the task's `Vars` and the
  current process environment → resolved variable map or error);
* `exec` is `execext.RunCommand` (command, dir, environment → combined
  standard output or failure message);
* `sched` is the linearization order chosen for the concurrent dependency
  units of one `runDeps` call. -/
structure Ctx where
  replaceVariables : String → List (String × String) → Except Err String
  handleVariables : List (String × String) → List (String × String) →
    Except Err (List (String × String))
  exec : String → String → Option (List String) → Except String String
  sched : List String → List String

/-! ## Environment builder -/

/-- Inner loop of `getEnviron`: for each `Env` pair substitute the value,
then the key, appending `"key=value"`; the first substitution failure
aborts. -/
def getEnvironLoop (C : Ctx) (vars : List (String × String)) :
    List (String × String) → List String → Except Err (List String)
  | [], envs => .ok envs
  | (k, v) :: rest, envs =>
    match C.replaceVariables v vars with
    | .error e => .error e
    | .ok replacedValue =>
      match C.replaceVariables k vars with
      | .error e => .error e
      | .ok replacedKey =>
        getEnvironLoop C vars rest (envs ++ [replacedKey ++ "=" ++ replacedValue])

/-- `Task.getEnviron`: a nil `Env` yields a nil environment (inherit); a
non-nil `Env` starts from `os.Environ()` and appends one substituted
`"key=value"` entry per pair. -/
def Task.getEnviron (C : Ctx) (t : Task) (vars : List (String × String))
    (penv : List (String × String)) : Except Err (Option (List String)) :=
  match t.Env with
  | none => .ok none
  | some pairs =>
    match getEnvironLoop C vars pairs (environStrings penv) with
    | .error e => .error e
    | .ok envs => .ok (some envs)

/-! ## The engine

The mutually recursive knot `RunTask` → `runDeps`/`runCommand` → `RunTask`
is tied with a fuel parameter: the loop bodies are parameterized by the
recursive call `rt`, and `runTask` passes itself at one unit less fuel. -/

/-- One dependency unit of `runDeps` (`g.Go` closure): substitute variables
into the dependency name, then run that task. -/
def depUnit (rt : String → St → St × Except Err Unit) (C : Ctx)
    (vars : List (String × String)) (d : String) (st : St) :
    St × Except Err Unit :=
  match C.replaceVariables d vars with
  | .error e => (st, .error e)
  | .ok dep => rt dep st

/-- The errgroup fan-out of `runDeps`, linearized: run every dependency
unit in schedule order; `g.Wait()` waits for all of them and returns the
error of the earliest failing unit. -/
def depsLoop (rt : String → St → St × Except Err Unit) (C : Ctx)
    (vars : List (String × String)) :
    List String → St → St × Except Err Unit
  | [], st => (st, .ok ())
  | d :: ds, st =>
    let r1 := depUnit rt C vars d st
    let r2 := depsLoop rt C vars ds r1.1
    (r2.1, match r1.2 with | .error e => .error e | .ok _ => r2.2)

/-- `Task.runDeps`: resolve the task's own `Vars` once, then drive one unit
per entry of `Deps`. -/
def runDepsWith (rt : String → St → St × Except Err Unit) (C : Ctx)
    (t : Task) (st : St) : St × Except Err Unit :=
  match C.handleVariables t.Vars st.penv with
  | .error e => (st, .error e)
  | .ok vars => depsLoop rt C vars (C.sched t.Deps) st

/-- `Task.runCommand`, translated line by line from the source: resolve
`Vars`, substitute the command; a `^`-prefixed result is a sub-task
invocation (strip the marker, recurse, return that result); otherwise
substitute `Dir`, build the environment, and either run with inherited
stdout (empty `Set`, command echoed to the log first) or capture stdout
into the environment variable named by `Set` after `TrimSpace`. -/
def runCommandWith (rt : String → St → St × Except Err Unit) (C : Ctx)
    (t : Task) (cmd : String) (st : St) : St × Except Err Unit :=
  match C.handleVariables t.Vars st.penv with
  | .error e => (st, .error e)
  | .ok vars =>
    match C.replaceVariables cmd vars with
    | .error e => (st, .error e)
    | .ok c =>
      if hasCaretPrefix c then rt (trimCaretPrefix c) st
      else
        match C.replaceVariables t.Dir vars with
        | .error e => (st, .error e)
        | .ok dir =>
          match t.getEnviron C vars st.penv with
          | .error e => (st, .error e)
          | .ok envs =>
            if t.Set = "" then
              let st1 := emit (Ev.spawn c dir envs) (emit (Ev.log c) st)
              match C.exec c dir envs with
              | .error msg => (st1, .error (.cmdFail msg))
              | .ok out => (emit (Ev.stdout out) st1, .ok ())
            else
              let st1 := emit (Ev.spawn c dir envs) st
              match C.exec c dir envs with
              | .error msg => (st1, .error (.cmdFail msg))
              | .ok out =>
                let v := trimSpace out
                (emit (Ev.setenv t.Set v)
                  { penv := setenvList st1.penv t.Set v, trace := st1.trace },
                 .ok ())

/-- The command loop of `RunTask` (`for i := range t.Cmds`): run each
command in order, wrapping a failure as `taskRunError{name, err}`. -/
def cmdsLoop (rt : String → St → St × Except Err Unit) (C : Ctx)
    (depth : Nat) (name : String) (t : Task) :
    List String → Nat → St → St × Except Err Unit
  | [], _, st => (st, .ok ())
  | c :: cs, i, st =>
    let st0 := emit (Ev.cmdStart depth name i) st
    let r := runCommandWith rt C t c st0
    match r.2 with
    | .error e => (r.1, .error (.taskRun name e))
    | .ok _ => cmdsLoop rt C depth name t cs (i + 1) r.1

/-- The tail of `RunTask` once the task is known to run: the command loop
followed by the successful-completion marker. -/
def cmdsPhase (rt : String → St → St × Except Err Unit) (C : Ctx)
    (depth : Nat) (name : String) (t : Task) (st : St) :
    St × Except Err Unit :=
  let rc := cmdsLoop rt C depth name t t.Cmds 0 st
  match rc.2 with
  | .error e => (rc.1, .error e)
  | .ok _ => (emit (Ev.taskDone name) rc.1, .ok ())

/-- `RunTask`: look the task up, run its dependencies, and unless the task
is up to date (`!Force && t.isUpToDate()`, with the short-circuit meaning
the freshness checker is consulted only when `force` is off) run its
commands in order.  Successful returns are marked with a `taskDone`
event. -/
def runTask (C : Ctx) (reg : Reg) (force : Bool) (fs : Fs) :
    Nat → String → St → St × Except Err Unit
  | 0, _, st => (st, .error .outOfFuel)
  | fuel + 1, name, st =>
    match lookupTask reg name with
    | none => (st, .error (.taskNotFound name))
    | some t =>
      let rd := runDepsWith (runTask C reg force fs fuel) C t st
      match rd.2 with
      | .error e => (rd.1, .error e)
      | .ok _ =>
        if force then
          cmdsPhase (runTask C reg force fs fuel) C (fuel + 1) name t rd.1
        else
          let st1 := emit (Ev.freshCheck name) rd.1
          if t.isUpToDate fs then
            (emit (Ev.taskDone name) (emit (Ev.skipUpToDate name) st1), .ok ())
          else
            cmdsPhase (runTask C reg force fs fuel) C (fuel + 1) name t st1

/-- How the top-level driver `Run` ends. -/
inductive RunOutcome where
  | done
  | fatalCyclic
  | fatalTask (e : Err)
  | notFound (name : String)
  | watchMode
deriving DecidableEq

/-- The driver loop of `Run`: run each requested task in order;
`log.Fatal` on the first failure. -/
def runArgs (C : Ctx) (reg : Reg) (force : Bool) (fs : Fs) (fuel : Nat) :
    List String → St → St × RunOutcome
  | [], st => (st, .done)
  | a :: rest, st =>
    let r := runTask C reg force fs fuel a st
    match r.2 with
    | .error e => (r.1, .fatalTask e)
    | .ok _ => runArgs C reg force fs fuel rest r.1

/-- `Run`: default the argument list, check the whole registry for cycles
(fatal on detection, marked by the `cycleCheck` event), verify that every
requested name exists (printing a not-found message plus the existing-tasks
help and returning on the first miss), then either hand over to the watcher
or run the requested tasks in order.  `readTaskfile` and flag parsing are
external; the registry and flags arrive as arguments. -/
def Run (C : Ctx) (reg : Reg) (force watch : Bool) (fs : Fs) (fuel : Nat)
    (args0 : List String) (st : St) : St × RunOutcome :=
  let p :=
    if args0.isEmpty then
      (["default"], emit (Ev.log "task: No argument given, trying default task") st)
    else (args0, st)
  let st1 := emit Ev.cycleCheck p.2
  if HasCyclicDep reg then (st1, .fatalCyclic)
  else
    match p.1.find? (fun a => (lookupTask reg a).isNone) with
    | some a =>
      (emit (Ev.log "task: (existing tasks help)")
        (emit (Ev.log ("task not found: " ++ a)) st1), .notFound a)
    | none =>
      if watch then (st1, .watchMode)
      else runArgs C reg force fs fuel p.1 st1

/-! ## Trace infrastructure

`TraceExt P tr tr'` says the run extended the trace `tr` to `tr'` by
appending events that all satisfy `P`. -/

/-- Trace extension: `tr'` is `tr` plus appended events satisfying `P`. -/
def TraceExt (P : Ev → Prop) (tr tr' : List Ev) : Prop :=
  ∃ τ, tr' = tr ++ τ ∧ ∀ e ∈ τ, P e

theorem traceExt_refl (P : Ev → Prop) (tr : List Ev) : TraceExt P tr tr :=
  ⟨[], by simp⟩

theorem traceExt_trans {P : Ev → Prop} {tr1 tr2 tr3 : List Ev}
    (h1 : TraceExt P tr1 tr2) (h2 : TraceExt P tr2 tr3) : TraceExt P tr1 tr3 := by
  obtain ⟨τ1, rfl, hp1⟩ := h1
  obtain ⟨τ2, rfl, hp2⟩ := h2
  exact ⟨τ1 ++ τ2, by simp, by intro e he; rcases List.mem_append.mp he with h | h
                               exacts [hp1 e h, hp2 e h]⟩

theorem traceExt_append {P : Ev → Prop} {τ : List Ev} (tr : List Ev)
    (hp : ∀ e ∈ τ, P e) : TraceExt P tr (tr ++ τ) :=
  ⟨τ, rfl, hp⟩

theorem traceExt_mono {P Q : Ev → Prop} (h : ∀ e, P e → Q e)
    {tr tr' : List Ev} (hx : TraceExt P tr tr') : TraceExt Q tr tr' := by
  obtain ⟨τ, rfl, hp⟩ := hx
  exact ⟨τ, rfl, fun e he => h e (hp e he)⟩

theorem traceExt_emit {P : Ev → Prop} {e : Ev} (st : St) (he : P e) :
    TraceExt P st.trace (emit e st).trace :=
  ⟨[e], rfl, by simpa using he⟩

theorem traceExt_mem {P : Ev → Prop} {tr tr' : List Ev} {e : Ev}
    (hx : TraceExt P tr tr') (he : e ∈ tr) : e ∈ tr' := by
  obtain ⟨τ, rfl, -⟩ := hx
  exact List.mem_append.mpr (Or.inl he)

theorem traceExt_two {P : Ev → Prop} {e1 e2 : Ev} (h1 : P e1) (h2 : P e2)
    (tr : List Ev) : TraceExt P tr (tr ++ [e1] ++ [e2]) := by
  refine ⟨[e1, e2], by simp, ?_⟩
  intro e he
  rcases List.mem_pair.mp he with rfl | rfl
  exacts [h1, h2]

/-- Generic trace-extension lemma for a dependency unit. -/
theorem depUnit_traceExt {P : Ev → Prop}
    {rt : String → St → St × Except Err Unit} (C : Ctx)
    (hrt : ∀ nm st, TraceExt P st.trace ((rt nm st).1).trace)
    (vars : List (String × String)) (d : String) (st : St) :
    TraceExt P st.trace ((depUnit rt C vars d st).1).trace := by
  unfold depUnit
  split
  · exact traceExt_refl P st.trace
  · exact hrt _ st

/-- Generic trace-extension lemma for the dependency loop. -/
theorem depsLoop_traceExt {P : Ev → Prop}
    {rt : String → St → St × Except Err Unit} (C : Ctx)
    (hrt : ∀ nm st, TraceExt P st.trace ((rt nm st).1).trace)
    (vars : List (String × String)) :
    ∀ (ds : List String) (st : St),
      TraceExt P st.trace ((depsLoop rt C vars ds st).1).trace := by
  intro ds
  induction ds with
  | nil => intro st; exact traceExt_refl P st.trace
  | cons d ds ih =>
    intro st
    exact traceExt_trans (depUnit_traceExt C hrt vars d st)
      (ih (depUnit rt C vars d st).1)

/-- Generic trace-extension lemma for `runDeps`. -/
theorem runDepsWith_traceExt {P : Ev → Prop}
    {rt : String → St → St × Except Err Unit} (C : Ctx)
    (hrt : ∀ nm st, TraceExt P st.trace ((rt nm st).1).trace)
    (t : Task) (st : St) :
    TraceExt P st.trace ((runDepsWith rt C t st).1).trace := by
  unfold runDepsWith
  split
  · exact traceExt_refl P st.trace
  · exact depsLoop_traceExt C hrt _ (C.sched t.Deps) st

/-- Generic trace-extension lemma for `runCommand`; `P` must accept the
events a direct command execution emits. -/
theorem runCommandWith_traceExt {P : Ev → Prop}
    {rt : String → St → St × Except Err Unit} (C : Ctx)
    (hrt : ∀ nm st, TraceExt P st.trace ((rt nm st).1).trace)
    (hlog : ∀ m, P (Ev.log m))
    (hspawn : ∀ c d e, P (Ev.spawn c d e))
    (hstdout : ∀ s, P (Ev.stdout s))
    (hsetenv : ∀ k v, P (Ev.setenv k v))
    (t : Task) (cmd : String) (st : St) :
    TraceExt P st.trace ((runCommandWith rt C t cmd st).1).trace := by
  unfold runCommandWith
  split
  · exact traceExt_refl P st.trace
  · split
    · exact traceExt_refl P st.trace
    · split
      · exact hrt _ st
      · split
        · exact traceExt_refl P st.trace
        · split
          · exact traceExt_refl P st.trace
          · split
            · split
              · exact traceExt_trans (traceExt_emit st (hlog _))
                  (traceExt_emit _ (hspawn _ _ _))
              · exact traceExt_trans (traceExt_trans (traceExt_emit st (hlog _))
                    (traceExt_emit _ (hspawn _ _ _))) (traceExt_emit _ (hstdout _))
            · split
              · exact traceExt_emit st (hspawn _ _ _)
              · exact traceExt_two (hspawn _ _ _) (hsetenv _ _) st.trace

/-- Generic trace-extension lemma for the command loop; `P` must also
accept the `cmdStart` events emitted at this depth for this task. -/
theorem cmdsLoop_traceExt {P : Ev → Prop}
    {rt : String → St → St × Except Err Unit} (C : Ctx)
    {depth : Nat} {name : String} (t : Task)
    (hrt : ∀ nm st, TraceExt P st.trace ((rt nm st).1).trace)
    (hlog : ∀ m, P (Ev.log m))
    (hspawn : ∀ c d e, P (Ev.spawn c d e))
    (hstdout : ∀ s, P (Ev.stdout s))
    (hsetenv : ∀ k v, P (Ev.setenv k v))
    (hstart : ∀ i, P (Ev.cmdStart depth name i)) :
    ∀ (cs : List String) (i : Nat) (st : St),
      TraceExt P st.trace ((cmdsLoop rt C depth name t cs i st).1).trace := by
  intro cs
  induction cs with
  | nil => intro i st; exact traceExt_refl P st.trace
  | cons c cs ih =>
    intro i st
    have h0 : TraceExt P st.trace ((emit (Ev.cmdStart depth name i) st)).trace :=
      traceExt_emit st (hstart i)
    have h1 := runCommandWith_traceExt C hrt hlog hspawn hstdout hsetenv t c
      (emit (Ev.cmdStart depth name i) st)
    simp only [cmdsLoop]
    split
    · exact traceExt_trans h0 h1
    · exact traceExt_trans (traceExt_trans h0 h1) (ih (i + 1) _)

/-- Generic trace-extension lemma for the command phase of `RunTask`. -/
theorem cmdsPhase_traceExt {P : Ev → Prop}
    {rt : String → St → St × Except Err Unit} (C : Ctx)
    {depth : Nat} {name : String} (t : Task)
    (hrt : ∀ nm st, TraceExt P st.trace ((rt nm st).1).trace)
    (hlog : ∀ m, P (Ev.log m))
    (hspawn : ∀ c d e, P (Ev.spawn c d e))
    (hstdout : ∀ s, P (Ev.stdout s))
    (hsetenv : ∀ k v, P (Ev.setenv k v))
    (hstart : ∀ i, P (Ev.cmdStart depth name i))
    (hdone : P (Ev.taskDone name))
    (st : St) :
    TraceExt P st.trace ((cmdsPhase rt C depth name t st).1).trace := by
  have h1 := cmdsLoop_traceExt C t hrt hlog hspawn hstdout hsetenv hstart t.Cmds 0 st
  simp only [cmdsPhase]
  split
  · exact h1
  · exact traceExt_trans h1 (traceExt_emit _ hdone)

/-- `DepthLE f e`: if `e` is a `cmdStart` event, its depth is at most `f`. -/
def DepthLE (f : Nat) (e : Ev) : Prop :=
  ∀ d nm i, e = Ev.cmdStart d nm i → d ≤ f

/-- Master trace-extension lemma for `runTask`: a run at fuel `f ≤ N`
appends only events satisfying `P`, provided `P` accepts every event kind
the engine emits, with `cmdStart` depths up to `N`. -/
theorem runTask_traceExt {P : Ev → Prop} (C : Ctx) (reg : Reg)
    (force : Bool) (fs : Fs) (N : Nat)
    (hlog : ∀ m, P (Ev.log m))
    (hspawn : ∀ c d e, P (Ev.spawn c d e))
    (hstdout : ∀ s, P (Ev.stdout s))
    (hsetenv : ∀ k v, P (Ev.setenv k v))
    (hstart : ∀ d nm i, d ≤ N → P (Ev.cmdStart d nm i))
    (hdone : ∀ nm, P (Ev.taskDone nm))
    (hfresh : ∀ nm, P (Ev.freshCheck nm))
    (hskip : ∀ nm, P (Ev.skipUpToDate nm)) :
    ∀ (f : Nat), f ≤ N → ∀ (name : String) (st : St),
      TraceExt P st.trace ((runTask C reg force fs f name st).1).trace := by
  intro f
  induction f with
  | zero => intro _ name st; exact traceExt_refl P st.trace
  | succ k ih =>
    intro hkN name st
    have hrt : ∀ nm st', TraceExt P st'.trace
        ((runTask C reg force fs k nm st').1).trace :=
      ih (Nat.le_of_succ_le hkN)
    simp only [runTask]
    split
    · exact traceExt_refl P st.trace
    · rename_i t ht
      have h1 := runDepsWith_traceExt C hrt t st
      split
      · exact h1
      · split
        · exact traceExt_trans h1
            (cmdsPhase_traceExt C t hrt hlog hspawn hstdout hsetenv
              (fun i => hstart (k + 1) name i hkN) (hdone name) _)
        · split
          · exact traceExt_trans h1
              (traceExt_trans (traceExt_emit _ (hfresh name))
                (traceExt_trans (traceExt_emit _ (hskip name))
                  (traceExt_emit _ (hdone name))))
          · exact traceExt_trans h1
              (traceExt_trans (traceExt_emit _ (hfresh name))
                (cmdsPhase_traceExt C t hrt hlog hspawn hstdout hsetenv
                  (fun i => hstart (k + 1) name i hkN) (hdone name) _))

/-- A run only ever appends to the trace. -/
theorem runTask_trace_mono (C : Ctx) (reg : Reg) (force : Bool) (fs : Fs)
    (f : Nat) (name : String) (st : St) :
    TraceExt (fun _ => True) st.trace ((runTask C reg force fs f name st).1).trace :=
  runTask_traceExt C reg force fs f
    (fun _ => trivial) (fun _ _ _ => trivial) (fun _ => trivial)
    (fun _ _ => trivial) (fun _ _ _ _ => trivial) (fun _ => trivial)
    (fun _ => trivial) (fun _ => trivial) f le_rfl name st

/-- A run at fuel `f` never starts a command at depth above `f`. -/
theorem runTask_depthLE (C : Ctx) (reg : Reg) (force : Bool) (fs : Fs)
    (f : Nat) (name : String) (st : St) :
    TraceExt (DepthLE f) st.trace ((runTask C reg force fs f name st).1).trace :=
  runTask_traceExt C reg force fs f
    (fun _ _ _ _ h => nomatch h) (fun _ _ _ _ _ _ h => nomatch h)
    (fun _ _ _ _ h => nomatch h) (fun _ _ _ _ _ h => nomatch h)
    (fun d nm i hd d' nm' i' h => by cases h; exact hd)
    (fun _ _ _ _ h => nomatch h) (fun _ _ _ _ h => nomatch h)
    (fun _ _ _ _ h => nomatch h) f le_rfl name st

/-- A successful command phase appends the `taskDone` marker of its task. -/
theorem cmdsPhase_ok_trace {rt : String → St → St × Except Err Unit} (C : Ctx)
    (depth : Nat) (name : String) (t : Task) (st0 : St)
    (hrt : ∀ nm st', TraceExt (fun _ => True) st'.trace ((rt nm st').1).trace)
    (h : (cmdsPhase rt C depth name t st0).2 = .ok ()) :
    ∃ τ, ((cmdsPhase rt C depth name t st0).1).trace = st0.trace ++ τ ∧
      Ev.taskDone name ∈ τ := by
  have hx : TraceExt (fun _ => True) st0.trace
      ((cmdsLoop rt C depth name t t.Cmds 0 st0).1).trace :=
    cmdsLoop_traceExt C t hrt (fun _ => trivial) (fun _ _ _ => trivial)
      (fun _ => trivial) (fun _ _ => trivial) (fun _ => trivial) t.Cmds 0 st0
  obtain ⟨τ2, he2, -⟩ := hx
  simp only [cmdsPhase] at h ⊢
  cases hc : (cmdsLoop rt C depth name t t.Cmds 0 st0).2 with
  | error e => rw [hc] at h; simp at h
  | ok v =>
    dsimp only
    refine ⟨τ2 ++ [Ev.taskDone name], ?_, by simp⟩
    simp [emit, he2, List.append_assoc]

/-- A successful `RunTask` appends a `taskDone` marker for its task. -/
theorem runTask_ok_taskDone (C : Ctx) (reg : Reg) (force : Bool) (fs : Fs) :
    ∀ (f : Nat) (name : String) (st : St),
      (runTask C reg force fs f name st).2 = .ok () →
      ∃ τ, ((runTask C reg force fs f name st).1).trace = st.trace ++ τ ∧
        Ev.taskDone name ∈ τ := by
  intro f name st h
  match f with
  | 0 => simp [runTask] at h
  | k + 1 =>
    have hrt : ∀ nm st', TraceExt (fun _ => True) st'.trace
        ((runTask C reg force fs k nm st').1).trace :=
      fun nm st' => runTask_trace_mono C reg force fs k nm st'
    simp only [runTask] at h ⊢
    cases hlk : lookupTask reg name with
    | none => rw [hlk] at h; simp at h
    | some t =>
      rw [hlk] at h
      dsimp only at h ⊢
      obtain ⟨τ1, he1, -⟩ := runDepsWith_traceExt C hrt t st
      cases hrd : (runDepsWith (runTask C reg force fs k) C t st).2 with
      | error e => rw [hrd] at h; simp at h
      | ok u =>
        rw [hrd] at h
        dsimp only at h ⊢
        by_cases hf : force = true
        · rw [if_pos hf] at h ⊢
          obtain ⟨τ2, he2, hd2⟩ := cmdsPhase_ok_trace C (k + 1) name t _ hrt h
          refine ⟨τ1 ++ τ2, ?_, List.mem_append.mpr (Or.inr hd2)⟩
          rw [he2, he1, List.append_assoc]
        · rw [if_neg hf] at h ⊢
          by_cases hu : t.isUpToDate fs = true
          · rw [if_pos hu] at h ⊢
            refine ⟨τ1 ++ [Ev.freshCheck name, Ev.skipUpToDate name,
              Ev.taskDone name], ?_, by simp⟩
            simp [emit, he1, List.append_assoc]
          · rw [if_neg hu] at h ⊢
            obtain ⟨τ2, he2, hd2⟩ := cmdsPhase_ok_trace C (k + 1) name t _ hrt h
            refine ⟨τ1 ++ [Ev.freshCheck name] ++ τ2, ?_,
              List.mem_append.mpr (Or.inr hd2)⟩
            rw [he2]
            simp [emit, he1, List.append_assoc]

/-- If the schedule-ordered dependency loop returns success, every listed
dependency name substituted successfully and its task ran to successful
completion, marked by a `taskDone` event inside the events this loop
appended (hence strictly before anything emitted afterwards). -/
theorem depsLoop_ok_taskDone (C : Ctx) (reg : Reg) (force : Bool) (fs : Fs)
    (k : Nat) (vars : List (String × String)) :
    ∀ (ds : List String) (st : St),
      (depsLoop (runTask C reg force fs k) C vars ds st).2 = .ok () →
      ∃ τ, ((depsLoop (runTask C reg force fs k) C vars ds st).1).trace =
          st.trace ++ τ ∧
        ∀ d ∈ ds, ∃ d', C.replaceVariables d vars = .ok d' ∧
          Ev.taskDone d' ∈ τ := by
  intro ds
  induction ds with
  | nil => intro st _; exact ⟨[], by simp [depsLoop], by simp⟩
  | cons d ds ih =>
    intro st h
    simp only [depsLoop] at h ⊢
    cases hr1 : (depUnit (runTask C reg force fs k) C vars d st).2 with
    | error e => rw [hr1] at h; simp at h
    | ok u =>
      rw [hr1] at h
      dsimp only at h
      have h2 := ih (depUnit (runTask C reg force fs k) C vars d st).1 h
      obtain ⟨τ1, he1, hmem1⟩ := h2
      cases hrv : C.replaceVariables d vars with
      | error e =>
        exfalso
        have : (depUnit (runTask C reg force fs k) C vars d st).2 = .error e := by
          simp [depUnit, hrv]
        rw [this] at hr1; exact Except.noConfusion hr1
      | ok dep =>
        have hst1 : depUnit (runTask C reg force fs k) C vars d st =
            runTask C reg force fs k dep st := by
          simp [depUnit, hrv]
        rw [hst1] at hr1 he1
        obtain ⟨τ0, he0, hd0⟩ := runTask_ok_taskDone C reg force fs k dep st hr1
        refine ⟨τ0 ++ τ1, ?_, ?_⟩
        · rw [hst1, he1, he0, List.append_assoc]
        · intro x hx
          rcases List.mem_cons.mp hx with rfl | hx
          · exact ⟨dep, hrv, List.mem_append.mpr (Or.inl hd0)⟩
          · obtain ⟨d', hrv', hmem'⟩ := hmem1 x hx
            exact ⟨d', hrv', List.mem_append.mpr (Or.inr hmem')⟩

/-! ## Command-start bookkeeping

`cmdStartIdxs depth name τ` extracts, in trace order, the indices of the
commands of task `name` started by the `RunTask` invocation at fuel
`depth`. -/

/-- Index extractor for one event. -/
def cmdStartIdx (d : Nat) (nm : String) : Ev → Option Nat
  | Ev.cmdStart d' nm' i => if d' = d ∧ nm' = nm then some i else none
  | _ => none

/-- Indices of this invocation's command starts, in trace order. -/
def cmdStartIdxs (d : Nat) (nm : String) (τ : List Ev) : List Nat :=
  τ.filterMap (cmdStartIdx d nm)

/-- `idxRange i m = [i, i+1, ..., i+m-1]`. -/
def idxRange : Nat → Nat → List Nat
  | _, 0 => []
  | i, m + 1 => i :: idxRange (i + 1) m

theorem cmdStartIdx_none_of_depthLE {k d : Nat} (hk : k < d) (nm : String)
    {e : Ev} (h : DepthLE k e) : cmdStartIdx d nm e = none := by
  cases e <;> try rfl
  rename_i d' nm' i
  have hd' : d' ≤ k := h d' nm' i rfl
  simp only [cmdStartIdx]
  rw [if_neg]
  rintro ⟨rfl, -⟩
  omega

theorem cmdStartIdxs_nil_of_depthLE {k d : Nat} (hk : k < d) (nm : String)
    {τ : List Ev} (h : ∀ e ∈ τ, DepthLE k e) : cmdStartIdxs d nm τ = [] := by
  induction τ with
  | nil => rfl
  | cons e τ ih =>
    have h1 : cmdStartIdx d nm e = none :=
      cmdStartIdx_none_of_depthLE hk nm (h e (by simp))
    simp only [cmdStartIdxs, List.filterMap_cons, h1]
    exact ih (fun e' he' => h e' (by simp [he']))

theorem cmdStartIdxs_append (d : Nat) (nm : String) (τ1 τ2 : List Ev) :
    cmdStartIdxs d nm (τ1 ++ τ2) = cmdStartIdxs d nm τ1 ++ cmdStartIdxs d nm τ2 := by
  simp [cmdStartIdxs, List.filterMap_append]

/-- The command loop starting at index `i` starts exactly the commands
`i, i+1, ...` in order, for some count bounded by the number of remaining
commands; the recursive sub-task runs contribute no command start at this
depth. -/
theorem cmdsLoop_idxs {rt : String → St → St × Except Err Unit} (C : Ctx)
    (depth : Nat) (name : String) (t : Task)
    (hrt : ∀ nm st', TraceExt (fun e => cmdStartIdx depth name e = none)
      st'.trace ((rt nm st').1).trace) :
    ∀ (cs : List String) (i : Nat) (st : St),
      ∃ τ m, ((cmdsLoop rt C depth name t cs i st).1).trace = st.trace ++ τ ∧
        m ≤ cs.length ∧ cmdStartIdxs depth name τ = idxRange i m := by
  intro cs
  induction cs with
  | nil =>
    intro i st
    exact ⟨[], 0, by simp [cmdsLoop], by simp, rfl⟩
  | cons c cs ih =>
    intro i st
    obtain ⟨τ1, he1, hp1⟩ := runCommandWith_traceExt C hrt
      (fun _ => rfl) (fun _ _ _ => rfl) (fun _ => rfl) (fun _ _ => rfl)
      t c (emit (Ev.cmdStart depth name i) st)
    have hidx1 : cmdStartIdxs depth name τ1 = [] :=
      List.filterMap_eq_nil_iff.mpr hp1
    have hstart : cmdStartIdx depth name (Ev.cmdStart depth name i) = some i := by
      simp [cmdStartIdx]
    simp only [cmdsLoop]
    cases hr : (runCommandWith rt C t c (emit (Ev.cmdStart depth name i) st)).2 with
    | error e =>
      dsimp only
      refine ⟨Ev.cmdStart depth name i :: τ1, 1, ?_, by simp, ?_⟩
      · rw [he1]; simp [emit]
      · simp only [cmdStartIdxs, List.filterMap_cons, hstart]
        rw [show τ1.filterMap (cmdStartIdx depth name) = [] from hidx1]
        rfl
    | ok u =>
      dsimp only
      obtain ⟨τ2, m, he2, hm, hidx2⟩ :=
        ih (i + 1) (runCommandWith rt C t c (emit (Ev.cmdStart depth name i) st)).1
      refine ⟨Ev.cmdStart depth name i :: (τ1 ++ τ2), m + 1, ?_, by simpa using hm, ?_⟩
      · rw [he2, he1]; simp [emit]
      · simp only [cmdStartIdxs, List.filterMap_cons, hstart, List.filterMap_append]
        rw [show τ1.filterMap (cmdStartIdx depth name) = [] from hidx1]
        simp only [List.nil_append, idxRange]
        exact congrArg (i :: ·) hidx2

/-- The command phase starts an in-order initial segment of the task's
commands, beginning at index 0. -/
theorem cmdsPhase_idxs {rt : String → St → St × Except Err Unit} (C : Ctx)
    (depth : Nat) (name : String) (t : Task) (st0 : St)
    (hrt : ∀ nm st', TraceExt (fun e => cmdStartIdx depth name e = none)
      st'.trace ((rt nm st').1).trace) :
    ∃ τ m, ((cmdsPhase rt C depth name t st0).1).trace = st0.trace ++ τ ∧
      m ≤ t.Cmds.length ∧ cmdStartIdxs depth name τ = idxRange 0 m := by
  obtain ⟨τ, m, he, hm, hidx⟩ := cmdsLoop_idxs C depth name t hrt t.Cmds 0 st0
  simp only [cmdsPhase]
  cases hc : (cmdsLoop rt C depth name t t.Cmds 0 st0).2 with
  | error e => exact ⟨τ, m, he, hm, hidx⟩
  | ok u =>
    dsimp only
    refine ⟨τ ++ [Ev.taskDone name], m, ?_, hm, ?_⟩
    · simp [emit, he]
    · rw [cmdStartIdxs_append, hidx]
      simp [cmdStartIdxs, cmdStartIdx]

/-- `g.Wait()` linearized: if every unit before `x` in schedule order
succeeds and `x`'s unit fails with `e`, the dependency loop fails with
exactly `e`, whatever the units after `x` would do. -/
theorem depsLoop_first_error {rt : String → St → St × Except Err Unit}
    (C : Ctx) (vars : List (String × String)) (e : Err) :
    ∀ (pre : List String) (post : List String) (x : String) (st st1 st2 : St),
      depsLoop rt C vars pre st = (st1, .ok ()) →
      depUnit rt C vars x st1 = (st2, .error e) →
      ∃ st3, depsLoop rt C vars (pre ++ x :: post) st = (st3, .error e) := by
  intro pre
  induction pre with
  | nil =>
    intro post x st st1 st2 hpre hx
    have hst : st = st1 := congrArg Prod.fst hpre
    subst hst
    refine ⟨(depsLoop rt C vars post st2).1, ?_⟩
    simp only [List.nil_append, depsLoop, hx]
  | cons d pre ih =>
    intro post x st st1 st2 hpre hx
    simp only [depsLoop] at hpre
    cases hr1 : (depUnit rt C vars d st).2 with
    | error e' =>
      rw [hr1] at hpre
      exact absurd (congrArg Prod.snd hpre) (by simp)
    | ok u =>
      rw [hr1] at hpre
      dsimp only at hpre
      have h1 : depsLoop rt C vars pre (depUnit rt C vars d st).1 = (st1, .ok ()) := by
        have hfst := congrArg Prod.fst hpre
        have hsnd := congrArg Prod.snd hpre
        dsimp at hfst hsnd
        exact Prod.ext hfst hsnd
      obtain ⟨st3, h3⟩ := ih post x _ st1 st2 h1 hx
      refine ⟨st3, ?_⟩
      simp only [List.cons_append, depsLoop, hr1]
      rw [Prod.mk.eta]
      exact h3

/-! ## Claim theorems -/

/-- C1: `RunTask` executes the task's commands in `Cmds` order, one at a
time, and no command of the task begins until `runDeps` has returned
successfully: the final trace splits as the dependency phase followed by
the command phase; when the dependency phase succeeds, every scheduled
dependency's substituted task has a successful-completion marker inside
the dependency phase (hence strictly before every command start of this
invocation); when it fails, the command phase is empty; and the command
starts of this invocation are exactly the indices `0, 1, ..., m-1` of an
initial segment of `Cmds`, in that order. -/
theorem runTask_deps_complete_before_cmds_in_order
    (C : Ctx) (reg : Reg) (force : Bool) (fs : Fs) (k : Nat)
    (name : String) (t : Task) (st : St) (vars : List (String × String))
    (hlk : lookupTask reg name = some t)
    (hv : C.handleVariables t.Vars st.penv = .ok vars) :
    ∃ stD rD τc,
      runDepsWith (runTask C reg force fs k) C t st = (stD, rD) ∧
      ((runTask C reg force fs (k + 1) name st).1).trace = stD.trace ++ τc ∧
      (rD = .ok () → ∃ τd, stD.trace = st.trace ++ τd ∧
        ∀ d ∈ C.sched t.Deps, ∃ d',
          C.replaceVariables d vars = .ok d' ∧ Ev.taskDone d' ∈ τd) ∧
      (rD ≠ .ok () → τc = []) ∧
      (∃ m, m ≤ t.Cmds.length ∧ cmdStartIdxs (k + 1) name τc = idxRange 0 m) := by
  have hrt : ∀ nm st', TraceExt (fun e => cmdStartIdx (k + 1) name e = none)
      st'.trace ((runTask C reg force fs k nm st').1).trace :=
    fun nm st' => traceExt_mono
      (fun e hD => cmdStartIdx_none_of_depthLE (Nat.lt_succ_self k) name hD)
      (runTask_depthLE C reg force fs k nm st')
  have hrd : runDepsWith (runTask C reg force fs k) C t st =
      depsLoop (runTask C reg force fs k) C vars (C.sched t.Deps) st := by
    simp [runDepsWith, hv]
  simp only [runTask, hlk]
  cases hd2 : (runDepsWith (runTask C reg force fs k) C t st).2 with
  | error e =>
    refine ⟨(runDepsWith (runTask C reg force fs k) C t st).1, .error e, [],
      Prod.ext rfl hd2, by simp, ?_, fun _ => rfl,
      ⟨0, Nat.zero_le _, rfl⟩⟩
    intro h
    exact absurd h (by simp)
  | ok u =>
    cases u
    dsimp only
    have h3 : ∃ τd, ((runDepsWith (runTask C reg force fs k) C t st).1).trace =
        st.trace ++ τd ∧ ∀ d ∈ C.sched t.Deps, ∃ d',
          C.replaceVariables d vars = .ok d' ∧ Ev.taskDone d' ∈ τd := by
      have hds : (depsLoop (runTask C reg force fs k) C vars (C.sched t.Deps) st).2 =
          .ok () := by rw [← hrd]; exact hd2
      obtain ⟨τd, ht, hm⟩ :=
        depsLoop_ok_taskDone C reg force fs k vars (C.sched t.Deps) st hds
      exact ⟨τd, by rw [hrd]; exact ht, hm⟩
    by_cases hf : force = true
    · obtain ⟨τc, m, hct, hm, hidx⟩ := cmdsPhase_idxs C (k + 1) name t
        (runDepsWith (runTask C reg force fs k) C t st).1 hrt
      refine ⟨_, .ok (), τc, Prod.ext rfl hd2, ?_, fun _ => h3,
        fun hne => absurd rfl hne, ⟨m, hm, hidx⟩⟩
      rw [if_pos hf]
      exact hct
    · by_cases hu : t.isUpToDate fs = true
      · refine ⟨_, .ok (), [Ev.freshCheck name, Ev.skipUpToDate name,
          Ev.taskDone name], Prod.ext rfl hd2, ?_, fun _ => h3,
          fun hne => absurd rfl hne, ⟨0, Nat.zero_le _, rfl⟩⟩
        rw [if_neg hf, if_pos hu]
        simp [emit]
      · obtain ⟨τ', m, hct, hm, hidx⟩ := cmdsPhase_idxs C (k + 1) name t
          (emit (Ev.freshCheck name)
            (runDepsWith (runTask C reg force fs k) C t st).1) hrt
        refine ⟨_, .ok (), Ev.freshCheck name :: τ', Prod.ext rfl hd2, ?_,
          fun _ => h3, fun hne => absurd rfl hne, ⟨m, hm, ?_⟩⟩
        · rw [if_neg hf, if_neg hu, hct]
          simp [emit]
        · simp only [cmdStartIdxs, List.filterMap_cons]
          exact hidx

/-- C2: if, in schedule order, every dependency unit before `x` succeeds
and `x`'s unit fails with error `e`, then `runDeps` returns exactly `e`
(the first error observed), `RunTask` propagates it unchanged, and the
parent task starts none of its own commands — whatever the units after
`x` would have done. -/
theorem runTask_dep_failure_no_cmds
    (C : Ctx) (reg : Reg) (force : Bool) (fs : Fs) (k : Nat)
    (name : String) (t : Task) (st st1 st2 : St)
    (vars : List (String × String)) (pre post : List String) (x : String)
    (e : Err)
    (hlk : lookupTask reg name = some t)
    (hv : C.handleVariables t.Vars st.penv = .ok vars)
    (hs : C.sched t.Deps = pre ++ x :: post)
    (hpre : depsLoop (runTask C reg force fs k) C vars pre st = (st1, .ok ()))
    (hx : depUnit (runTask C reg force fs k) C vars x st1 = (st2, .error e)) :
    ∃ st3 τ,
      runDepsWith (runTask C reg force fs k) C t st = (st3, .error e) ∧
      runTask C reg force fs (k + 1) name st = (st3, .error e) ∧
      st3.trace = st.trace ++ τ ∧ cmdStartIdxs (k + 1) name τ = [] := by
  obtain ⟨st3, h3⟩ := depsLoop_first_error C vars e pre post x st st1 st2 hpre hx
  have hrd : runDepsWith (runTask C reg force fs k) C t st = (st3, .error e) := by
    simp only [runDepsWith, hv, hs]
    exact h3
  have hdep : TraceExt (DepthLE k) st.trace
      ((runDepsWith (runTask C reg force fs k) C t st).1).trace :=
    runDepsWith_traceExt C (fun nm st' => runTask_depthLE C reg force fs k nm st') t st
  rw [hrd] at hdep
  obtain ⟨τ, ht, hp⟩ := hdep
  refine ⟨st3, τ, hrd, ?_, ht, cmdStartIdxs_nil_of_depthLE (Nat.lt_succ_self k) name hp⟩
  simp only [runTask, hlk]
  rw [hrd]

/-! ## Concrete fixtures for witnesses and counterexamples -/

/-- Oracle bundle with identity substitution, empty variable maps, an
external shell that always succeeds with empty output, and the declared
dependency order as schedule. -/
def idCtx : Ctx where
  replaceVariables := fun s _ => .ok s
  handleVariables := fun _ _ => .ok []
  exec := fun _ _ _ => .ok ""
  sched := fun l => l

/-- A filesystem where every pattern matches nothing. -/
def fsEmpty : Fs := fun _ => .ok []

/-- The initial machine state: empty environment, empty trace. -/
def st0 : St := ⟨[], []⟩

/-- A task with one dependency and one command. -/
def taskW1 : Task :=
  { Task.default with Deps := ["lib"], Cmds := ["c1"] }

/-- Registry for the C1 witness. -/
def regW1 : Reg := [("build", taskW1), ("lib", Task.default)]

/-- A task depending on a name absent from the registry. -/
def taskW2 : Task :=
  { Task.default with Deps := ["missing"], Cmds := ["c"] }

/-- Registry for the C2 witness. -/
def regW2 : Reg := [("parent", taskW2)]

/-- Witness for C1: the concrete registry `regW1`, task `build` with one
dependency `lib` and one command, at fuel 2. -/
theorem runTask_deps_complete_before_cmds_in_order_witness :
    lookupTask regW1 "build" = some taskW1 ∧
    idCtx.handleVariables taskW1.Vars st0.penv = .ok [] ∧
    (∃ stD rD τc,
      runDepsWith (runTask idCtx regW1 false fsEmpty 1) idCtx taskW1 st0 = (stD, rD) ∧
      ((runTask idCtx regW1 false fsEmpty 2 "build" st0).1).trace = stD.trace ++ τc ∧
      (rD = .ok () → ∃ τd, stD.trace = st0.trace ++ τd ∧
        ∀ d ∈ idCtx.sched taskW1.Deps, ∃ d',
          idCtx.replaceVariables d [] = .ok d' ∧ Ev.taskDone d' ∈ τd) ∧
      (rD ≠ .ok () → τc = []) ∧
      (∃ m, m ≤ taskW1.Cmds.length ∧ cmdStartIdxs 2 "build" τc = idxRange 0 m)) :=
  ⟨rfl, rfl,
    runTask_deps_complete_before_cmds_in_order idCtx regW1 false fsEmpty 1
      "build" taskW1 st0 [] rfl rfl⟩

/-- Witness for C2: the concrete registry `regW2`, whose task `parent`
depends on the unregistered name `missing`; the single dependency unit
fails with `taskNotFound`, and `parent` starts no command. -/
theorem runTask_dep_failure_no_cmds_witness :
    lookupTask regW2 "parent" = some taskW2 ∧
    idCtx.handleVariables taskW2.Vars st0.penv = .ok [] ∧
    idCtx.sched taskW2.Deps = [] ++ "missing" :: [] ∧
    depsLoop (runTask idCtx regW2 false fsEmpty 1) idCtx [] [] st0 = (st0, .ok ()) ∧
    depUnit (runTask idCtx regW2 false fsEmpty 1) idCtx [] "missing" st0 =
      (st0, .error (Err.taskNotFound "missing")) ∧
    (∃ st3 τ,
      runDepsWith (runTask idCtx regW2 false fsEmpty 1) idCtx taskW2 st0 =
        (st3, .error (Err.taskNotFound "missing")) ∧
      runTask idCtx regW2 false fsEmpty 2 "parent" st0 =
        (st3, .error (Err.taskNotFound "missing")) ∧
      st3.trace = st0.trace ++ τ ∧ cmdStartIdxs 2 "parent" τ = []) :=
  ⟨rfl, rfl, rfl, rfl, rfl,
    runTask_dep_failure_no_cmds idCtx regW2 false fsEmpty 1 "parent" taskW2
      st0 st0 st0 [] [] [] "missing" (Err.taskNotFound "missing")
      rfl rfl rfl rfl rfl⟩

/-! ## Freshness-checker lemmas -/

theorem resolveAll_pos (fs : Fs)
    (hpos : ∀ p ts, fs p = .ok ts → ∀ x ∈ ts, 0 < x) :
    ∀ (ps : List String) (ts : List Nat), resolveAll fs ps = .ok ts →
      ∀ x ∈ ts, 0 < x := by
  intro ps
  induction ps with
  | nil =>
    intro ts h x hx
    simp only [resolveAll] at h
    cases h
    simp at hx
  | cons p ps ih =>
    intro ts h x hx
    simp only [resolveAll] at h
    cases hf : fs p with
    | error e => rw [hf] at h; simp at h
    | ok ts1 =>
      rw [hf] at h
      cases hr : resolveAll fs ps with
      | error e => rw [hr] at h; simp at h
      | ok ts2 =>
        rw [hr] at h
        dsimp only at h
        cases h
        rcases List.mem_append.mp hx with h1 | h2
        · exact hpos p ts1 hf x h1
        · exact ih ts2 hr x h2

theorem maxTime_pos {ts : List Nat} (hne : ts ≠ []) (hpos : ∀ x ∈ ts, 0 < x) :
    0 < maxTime ts := by
  cases ts with
  | nil => exact absurd rfl hne
  | cons t ts' =>
    have h1 : 0 < t := hpos t (by simp)
    simp only [maxTime]
    exact lt_of_lt_of_le h1 (le_max_left _ _)

theorem minTime_pos {ts : List Nat} (hne : ts ≠ []) (hpos : ∀ x ∈ ts, 0 < x) :
    0 < minTime ts := by
  induction ts with
  | nil => exact absurd rfl hne
  | cons t ts' ih =>
    cases ts' with
    | nil => simpa [minTime] using hpos t (by simp)
    | cons u us =>
      have h1 : 0 < t := hpos t (by simp)
      have h2 : 0 < minTime (u :: us) :=
        ih (by simp) (fun x hx => hpos x (by simp [hx]))
      simp only [minTime]
      exact lt_min h1 h2

/-- C3: `isUpToDate` returns false whenever `Sources` or `Generates` is
empty, whenever resolving either pattern set errors, and whenever either
pattern set matches zero files; otherwise it returns true iff the earliest
modification time among the `Generates` matches is strictly after the
latest modification time among the `Sources` matches.  The hypothesis
`hpos` says every real file's modification time is after the Go zero time
(the code uses `IsZero` as its no-matches sentinel). -/
theorem isUpToDate_spec (fs : Fs) (t : Task)
    (hpos : ∀ p ts, fs p = .ok ts → ∀ x ∈ ts, 0 < x) :
    (t.Sources = [] ∨ t.Generates = [] → t.isUpToDate fs = false) ∧
    (resolveAll fs t.Sources = .error () → t.isUpToDate fs = false) ∧
    (resolveAll fs t.Generates = .error () → t.isUpToDate fs = false) ∧
    (resolveAll fs t.Sources = .ok [] → t.isUpToDate fs = false) ∧
    (resolveAll fs t.Generates = .ok [] → t.isUpToDate fs = false) ∧
    (∀ ss gg, resolveAll fs t.Sources = .ok ss →
      resolveAll fs t.Generates = .ok gg → ss ≠ [] → gg ≠ [] →
      (t.isUpToDate fs = true ↔ maxTime ss < minTime gg)) := by
  refine ⟨?_, ?_, ?_, ?_, ?_, ?_⟩
  · intro h
    rcases h with h | h <;> simp [Task.isUpToDate, h]
  · intro h
    simp [Task.isUpToDate, getPatternsMaxTime, h, ite_self]
  · intro h
    unfold Task.isUpToDate
    split
    · rfl
    · unfold getPatternsMaxTime
      cases hs : resolveAll fs t.Sources with
      | error e => rfl
      | ok ss =>
        dsimp only
        split
        · rfl
        · have hmin : getPatternsMinTime fs t.Generates = .error () := by
            simp [getPatternsMinTime, h]
          rw [hmin]
  · intro h
    simp [Task.isUpToDate, getPatternsMaxTime, h, maxTime, ite_self]
  · intro h
    unfold Task.isUpToDate
    split
    · rfl
    · unfold getPatternsMaxTime
      cases hs : resolveAll fs t.Sources with
      | error e => rfl
      | ok ss =>
        dsimp only
        split
        · rfl
        · have hmin : getPatternsMinTime fs t.Generates = .ok 0 := by
            simp [getPatternsMinTime, h, minTime]
          rw [hmin]
          simp
  · intro ss gg hs hg hne1 hne2
    have hS : t.Sources ≠ [] := by
      intro h0
      rw [h0] at hs
      simp only [resolveAll] at hs
      cases hs
      exact hne1 rfl
    have hG : t.Generates ≠ [] := by
      intro h0
      rw [h0] at hg
      simp only [resolveAll] at hg
      cases hg
      exact hne2 rfl
    have hspos : 0 < maxTime ss := maxTime_pos hne1 (resolveAll_pos fs hpos t.Sources ss hs)
    have hgpos : 0 < minTime gg := minTime_pos hne2 (resolveAll_pos fs hpos t.Generates gg hg)
    have hsmax : getPatternsMaxTime fs t.Sources = .ok (maxTime ss) := by
      simp [getPatternsMaxTime, hs]
    have hgmin : getPatternsMinTime fs t.Generates = .ok (minTime gg) := by
      simp [getPatternsMinTime, hg]
    unfold Task.isUpToDate
    rw [if_neg (by simp [hS, hG]), hsmax]
    dsimp only
    rw [if_neg (by omega), hgmin]
    dsimp only
    rw [if_neg (by omega)]
    simp

/-! ## Environment-builder lemmas -/

theorem getEnvironLoop_ok (C : Ctx) (vars : List (String × String)) :
    ∀ (pairs : List (String × String)) (acc : List String),
      (∀ p ∈ pairs, ∃ k' v', C.replaceVariables p.1 vars = .ok k' ∧
        C.replaceVariables p.2 vars = .ok v') →
      getEnvironLoop C vars pairs acc = .ok (acc ++ pairs.map (fun p =>
        ((C.replaceVariables p.1 vars).toOption.getD "") ++ "=" ++
        ((C.replaceVariables p.2 vars).toOption.getD ""))) := by
  intro pairs
  induction pairs with
  | nil => intro acc _; simp [getEnvironLoop]
  | cons p ps ih =>
    intro acc hall
    obtain ⟨k', v', hk, hv⟩ := hall p (by simp)
    obtain ⟨p1, p2⟩ := p
    simp only [getEnvironLoop, hv, hk]
    rw [ih _ (fun q hq => hall q (by simp [hq]))]
    simp [hk, hv, Except.toOption]

theorem getEnvironLoop_error_iff (C : Ctx) (vars : List (String × String)) :
    ∀ (pairs : List (String × String)) (acc : List String),
      (∃ e, getEnvironLoop C vars pairs acc = .error e) ↔
        ∃ p ∈ pairs, (∃ e, C.replaceVariables p.2 vars = .error e) ∨
          (∃ e, C.replaceVariables p.1 vars = .error e) := by
  intro pairs
  induction pairs with
  | nil => intro acc; simp [getEnvironLoop]
  | cons p ps ih =>
    intro acc
    obtain ⟨k, v⟩ := p
    simp only [getEnvironLoop]
    cases hv : C.replaceVariables v vars with
    | error e =>
      dsimp only
      constructor
      · intro _
        exact ⟨(k, v), by simp, Or.inl ⟨e, hv⟩⟩
      · intro _
        exact ⟨e, rfl⟩
    | ok v' =>
      cases hk : C.replaceVariables k vars with
      | error e =>
        dsimp only
        constructor
        · intro _
          exact ⟨(k, v), by simp, Or.inr ⟨e, hk⟩⟩
        · intro _
          exact ⟨e, rfl⟩
      | ok k' =>
        dsimp only
        rw [ih (acc ++ [k' ++ "=" ++ v'])]
        constructor
        · rintro ⟨q, hq, hcase⟩
          exact ⟨q, by simp [hq], hcase⟩
        · rintro ⟨q, hq, hcase⟩
          rcases List.mem_cons.mp hq with rfl | hq'
          · dsimp only at hcase
            rcases hcase with ⟨e, he⟩ | ⟨e, he⟩
            · rw [hv] at he; exact absurd he (by simp)
            · rw [hk] at he; exact absurd he (by simp)
          · exact ⟨q, hq', hcase⟩

/-- C10: with a nil `Env`, `getEnviron` returns a nil environment and no
error (the spawned command inherits the ambient environment); with a
non-nil `Env`, it errors exactly when substituting some pair's key or
value fails, and on success returns the ambient `os.Environ()` entries
followed by one substituted `"key=value"` entry per `Env` pair. -/
theorem getEnviron_spec (C : Ctx) (t : Task) (vars penv : List (String × String)) :
    (t.Env = none → t.getEnviron C vars penv = .ok none) ∧
    (∀ pairs, t.Env = some pairs →
      ((∃ e, t.getEnviron C vars penv = .error e) ↔
        ∃ p ∈ pairs, (∃ e, C.replaceVariables p.2 vars = .error e) ∨
          (∃ e, C.replaceVariables p.1 vars = .error e)) ∧
      ((∀ p ∈ pairs, ∃ k' v', C.replaceVariables p.1 vars = .ok k' ∧
          C.replaceVariables p.2 vars = .ok v') →
        t.getEnviron C vars penv = .ok (some (environStrings penv ++
          pairs.map (fun p =>
            ((C.replaceVariables p.1 vars).toOption.getD "") ++ "=" ++
            ((C.replaceVariables p.2 vars).toOption.getD "")))))) := by
  constructor
  · intro h
    simp [Task.getEnviron, h]
  · intro pairs h
    constructor
    · cases hloop : getEnvironLoop C vars pairs (environStrings penv) with
      | error e =>
        have hge : t.getEnviron C vars penv = .error e := by
          simp [Task.getEnviron, h, hloop]
        constructor
        · intro _
          exact (getEnvironLoop_error_iff C vars pairs (environStrings penv)).mp
            ⟨e, hloop⟩
        · intro _
          exact ⟨e, hge⟩
      | ok envs =>
        have hge : t.getEnviron C vars penv = .ok (some envs) := by
          simp [Task.getEnviron, h, hloop]
        constructor
        · rintro ⟨e, he⟩
          rw [hge] at he
          exact absurd he (by simp)
        · intro hR
          obtain ⟨e, he⟩ :=
            (getEnvironLoop_error_iff C vars pairs (environStrings penv)).mpr hR
          rw [hloop] at he
          exact absurd he (by simp)
    · intro hall
      have hl := getEnvironLoop_ok C vars pairs (environStrings penv) hall
      simp [Task.getEnviron, h, hl]

/-- Filesystem for the C3 witness: one source file modified at time 5, one
generated file at time 7, every other pattern matching nothing. -/
def fs3 : Fs := fun p =>
  if p = "s.go" then .ok [5] else if p = "g.out" then .ok [7] else .ok []

/-- Task for the C3 witness. -/
def task3 : Task :=
  { Task.default with Sources := ["s.go"], Generates := ["g.out"] }

/-- Witness for C3 at the concrete filesystem `fs3`: both pattern sets
match one file each, and the task is up to date iff 5 < 7. -/
theorem isUpToDate_spec_witness :
    (∀ p ts, fs3 p = .ok ts → ∀ x ∈ ts, 0 < x) ∧
    resolveAll fs3 task3.Sources = .ok [5] ∧
    resolveAll fs3 task3.Generates = .ok [7] ∧
    (task3.isUpToDate fs3 = true ↔ maxTime [5] < minTime [7]) := by
  have hpos : ∀ p ts, fs3 p = .ok ts → ∀ x ∈ ts, 0 < x := by
    intro p ts h x hx
    unfold fs3 at h
    split_ifs at h <;> cases h <;> simp at hx <;> omega
  exact ⟨hpos, rfl, rfl,
    (isUpToDate_spec fs3 task3 hpos).2.2.2.2.2 [5] [7] rfl rfl
      (by simp) (by simp)⟩

/-! ## C4: output capture into `Set` -/

/-- Oracle bundle for C4: the shell prints a line with leading and
trailing whitespace. -/
def ctx4 : Ctx where
  replaceVariables := fun s _ => .ok s
  handleVariables := fun _ _ => .ok []
  exec := fun _ _ _ => .ok " hello\n"
  sched := fun l => l

/-- Task for C4: one command whose output is captured into `OUT`. -/
def task4 : Task := { Task.default with Cmds := ["c"], Set := "OUT" }

/-- Registry for C4. -/
def reg4 : Reg := [("t4", task4)]

/-- C4 counterexample: a command printing `" hello\n"` (leading space).
The code stores `"hello"` — `strings.TrimSpace` removes leading whitespace
as well — whereas trimming only trailing whitespace, as the claim states,
would store `" hello"`. -/
theorem runCommand_set_trailing_counterexample :
    ((runCommandWith (runTask ctx4 reg4 false fsEmpty 1) ctx4 task4 "c" st0).1).penv =
      [("OUT", "hello")] ∧
    trimTrailingSpace " hello\n" = " hello" ∧
    ("hello" : String) ≠ " hello" := by
  refine ⟨?_, ?_, ?_⟩ <;> decide

/-- C4 (amended): for a task with non-empty `Set`, a directly executed
command's standard output is captured rather than shown (no `stdout` and
no command-echo `log` event is appended), and after trimming leading and
trailing whitespace it is written by `os.Setenv` into the variable named
by `Set` in the process environment — the state threaded to every
subsequently executed command of the run. -/
theorem runCommand_set_captures_trimmed
    (C : Ctx) (rt : String → St → St × Except Err Unit) (t : Task)
    (st : St) (vars : List (String × String)) (cmd c dir out : String)
    (envs : Option (List String))
    (hv : C.handleVariables t.Vars st.penv = .ok vars)
    (hc : C.replaceVariables cmd vars = .ok c)
    (hp : hasCaretPrefix c = false)
    (hd : C.replaceVariables t.Dir vars = .ok dir)
    (he : t.getEnviron C vars st.penv = .ok envs)
    (hset : t.Set ≠ "")
    (hx : C.exec c dir envs = .ok out) :
    runCommandWith rt C t cmd st =
      ({ penv := setenvList st.penv t.Set (trimSpace out),
         trace := st.trace ++ [Ev.spawn c dir envs,
           Ev.setenv t.Set (trimSpace out)] }, .ok ()) := by
  unfold runCommandWith
  rw [hv]
  try dsimp only
  rw [hc]
  try dsimp only
  rw [hp]
  try dsimp only
  rw [hd]
  try dsimp only
  rw [he]
  try dsimp only
  rw [if_neg hset]
  rw [hx]
  try dsimp only
  simp [emit]

/-- Witness for the amended C4 at the concrete oracles `ctx4`: the
captured `" hello\n"` is stored as `OUT = "hello"`, with a `spawn` and a
`setenv` event and nothing shown on stdout. -/
theorem runCommand_set_captures_trimmed_witness :
    ctx4.handleVariables task4.Vars st0.penv = .ok [] ∧
    ctx4.replaceVariables "c" [] = .ok "c" ∧
    hasCaretPrefix "c" = false ∧
    ctx4.replaceVariables task4.Dir [] = .ok "" ∧
    task4.getEnviron ctx4 [] st0.penv = .ok none ∧
    task4.Set ≠ "" ∧
    ctx4.exec "c" "" none = .ok " hello\n" ∧
    runCommandWith (runTask ctx4 reg4 false fsEmpty 1) ctx4 task4 "c" st0 =
      ({ penv := setenvList st0.penv task4.Set (trimSpace " hello\n"),
         trace := st0.trace ++ [Ev.spawn "c" "" none,
           Ev.setenv task4.Set (trimSpace " hello\n")] }, .ok ()) :=
  ⟨rfl, rfl, rfl, rfl, rfl, by decide, rfl,
    runCommand_set_captures_trimmed ctx4 (runTask ctx4 reg4 false fsEmpty 1)
      task4 st0 [] "c" "c" "" " hello\n" none rfl rfl rfl rfl rfl
      (by decide) rfl⟩

/-! ## C5 and C9: sub-task dispatch -/

/-- C5: when the substituted command begins with the sub-task marker `^`,
`runCommand` strips the marker and recursively invokes `RunTask` on the
remainder (full dependency resolution, freshness check and commands),
returning that invocation's state and error or success verbatim — it never
reaches the shell-spawning code of its own step. -/
theorem runCommand_subtask_invokes_runTask
    (C : Ctx) (reg : Reg) (force : Bool) (fs : Fs) (k : Nat) (t : Task)
    (st : St) (vars : List (String × String)) (cmd c : String)
    (hv : C.handleVariables t.Vars st.penv = .ok vars)
    (hc : C.replaceVariables cmd vars = .ok c)
    (hp : hasCaretPrefix c = true) :
    runCommandWith (runTask C reg force fs k) C t cmd st =
      runTask C reg force fs k (trimCaretPrefix c) st ∧
    trimCaretPrefix c = String.mk (c.data.drop 1) := by
  constructor
  · unfold runCommandWith
    rw [hv]
    dsimp only
    rw [hc]
    dsimp only
    rw [if_pos hp]
  · unfold trimCaretPrefix
    rw [if_pos hp]

/-- Task for the C5 and C9 witnesses: a single `^build` command step. -/
def task5 : Task := { Task.default with Cmds := ["^build"] }

/-- Registry for the C5 and C9 witnesses. -/
def reg5 : Reg := [("build", Task.default), ("w", task5)]

/-- Witness for C5 at the concrete command `"^build"`. -/
theorem runCommand_subtask_invokes_runTask_witness :
    idCtx.handleVariables task5.Vars st0.penv = .ok [] ∧
    idCtx.replaceVariables "^build" [] = .ok "^build" ∧
    hasCaretPrefix "^build" = true ∧
    (runCommandWith (runTask idCtx reg5 false fsEmpty 1) idCtx task5 "^build" st0 =
      runTask idCtx reg5 false fsEmpty 1 (trimCaretPrefix "^build") st0 ∧
    trimCaretPrefix "^build" = String.mk ("^build".data.drop 1)) :=
  ⟨rfl, rfl, rfl,
    runCommand_subtask_invokes_runTask idCtx reg5 false fsEmpty 1 task5 st0 []
      "^build" "^build" rfl rfl rfl⟩

/-- C9: a command step dispatched as a sub-task invocation returns before
`Dir` is substituted, before the `Env` environment is built and before the
`Set` branch is reached: changing the invoking task's `Dir`, `Env` and
`Set` arbitrarily does not change the step's result — only the nested
task's own settings apply. -/
theorem runCommand_subtask_frame
    (C : Ctx) (rt : String → St → St × Except Err Unit) (t : Task)
    (st : St) (vars : List (String × String)) (cmd c : String)
    (hv : C.handleVariables t.Vars st.penv = .ok vars)
    (hc : C.replaceVariables cmd vars = .ok c)
    (hp : hasCaretPrefix c = true) :
    ∀ (d : String) (env : Option (List (String × String))) (sv : String),
      runCommandWith rt C { t with Dir := d, Env := env, Set := sv } cmd st =
        runCommandWith rt C t cmd st := by
  intro d env sv
  have h1 : runCommandWith rt C { t with Dir := d, Env := env, Set := sv } cmd st =
      rt (trimCaretPrefix c) st := by
    unfold runCommandWith
    rw [show ({ t with Dir := d, Env := env, Set := sv } : Task).Vars = t.Vars
      from rfl, hv]
    dsimp only
    rw [hc]
    dsimp only
    rw [if_pos hp]
  have h2 : runCommandWith rt C t cmd st = rt (trimCaretPrefix c) st := by
    unfold runCommandWith
    rw [hv]
    dsimp only
    rw [hc]
    dsimp only
    rw [if_pos hp]
  rw [h1, h2]

/-- Witness for C9: overriding `Dir`, `Env` and `Set` of the invoking task
leaves the `^build` step's result unchanged. -/
theorem runCommand_subtask_frame_witness :
    idCtx.handleVariables task5.Vars st0.penv = .ok [] ∧
    idCtx.replaceVariables "^build" [] = .ok "^build" ∧
    hasCaretPrefix "^build" = true ∧
    runCommandWith (runTask idCtx reg5 false fsEmpty 1) idCtx
        { task5 with Dir := "/tmp", Env := some [("A", "B")], Set := "OUT" }
        "^build" st0 =
      runCommandWith (runTask idCtx reg5 false fsEmpty 1) idCtx task5 "^build" st0 :=
  ⟨rfl, rfl, rfl,
    runCommand_subtask_frame idCtx (runTask idCtx reg5 false fsEmpty 1) task5
      st0 [] "^build" "^build" rfl rfl rfl "/tmp" (some [("A", "B")]) "OUT"⟩

/-! ## C6: the Force flag -/

/-- Events that are neither freshness checks nor up-to-date skips. -/
def NoFresh (e : Ev) : Prop :=
  (∀ nm, e ≠ Ev.freshCheck nm) ∧ (∀ nm, e ≠ Ev.skipUpToDate nm)

/-- C6: with the Force flag set, the up-to-date skip is disabled for every
task executed during the run: `RunTask` never consults `isUpToDate` — its
result is identical under any two filesystems — and never skips a task's
commands — no freshness-check and no up-to-date-skip event is ever
appended, at any fuel, for any task. -/
theorem runTask_force_bypasses_freshness (C : Ctx) (reg : Reg) :
    ∀ (fs1 fs2 : Fs) (f : Nat) (name : String) (st : St),
      runTask C reg true fs1 f name st = runTask C reg true fs2 f name st ∧
      TraceExt NoFresh st.trace ((runTask C reg true fs1 f name st).1).trace := by
  intro fs1 fs2 f
  induction f with
  | zero => intro name st; exact ⟨rfl, traceExt_refl _ _⟩
  | succ k ih =>
    intro name st
    have heq : runTask C reg true fs1 k = runTask C reg true fs2 k :=
      funext fun nm => funext fun st' => (ih nm st').1
    have hrt : ∀ nm st', TraceExt NoFresh st'.trace
        ((runTask C reg true fs1 k nm st').1).trace :=
      fun nm st' => (ih nm st').2
    constructor
    · simp only [runTask]
      try dsimp only
      rw [heq]
      simp only [if_true]
    · simp only [runTask]
      try dsimp only
      split
      · exact traceExt_refl _ _
      · rename_i t ht
        have h1 := runDepsWith_traceExt C hrt t st
        split
        · exact h1
        · exact traceExt_trans h1
            (cmdsPhase_traceExt C t hrt
              (fun m => ⟨fun nm h => Ev.noConfusion h, fun nm h => Ev.noConfusion h⟩)
              (fun c d e => ⟨fun nm h => Ev.noConfusion h, fun nm h => Ev.noConfusion h⟩)
              (fun s => ⟨fun nm h => Ev.noConfusion h, fun nm h => Ev.noConfusion h⟩)
              (fun kk v => ⟨fun nm h => Ev.noConfusion h, fun nm h => Ev.noConfusion h⟩)
              (fun i => ⟨fun nm h => Ev.noConfusion h, fun nm h => Ev.noConfusion h⟩)
              ⟨fun nm h => Ev.noConfusion h, fun nm h => Ev.noConfusion h⟩ _)

/-! ## C7: unknown requested names -/

/-- Registry for the C7 counterexample: a single valid task. -/
def reg7 : Reg := [("good", { Task.default with Cmds := ["echo"] })]

/-- C7 counterexample: requesting `["good", "bad"]` where only `good`
exists.  `Run` returns at the upfront existence check with a not-found
outcome for `bad` and executes nothing: the other requested entry point
`good` — a task that runs successfully when invoked — never runs (no
completion marker appears in the trace), contradicting the claim that the
other entry points execute unaffected. -/
theorem run_notfound_counterexample :
    (Run idCtx reg7 false false fsEmpty 3 ["good", "bad"] st0).2 =
      .notFound "bad" ∧
    Ev.taskDone "good" ∉
      ((Run idCtx reg7 false false fsEmpty 3 ["good", "bad"] st0).1).trace ∧
    (runTask idCtx reg7 false fsEmpty 3 "good" st0).2 = .ok () := by
  refine ⟨by decide, by decide, rfl⟩

/-- C7 (amended): for every non-empty requested-task list containing a
name with no registry entry, `Run` (after the cycle check passes) prints a
user-visible not-found message for the first such name plus the
existing-tasks help, and returns without executing any requested task —
the valid entry points of the same batch included: the final state gains
only those two log lines. -/
theorem run_notfound_aborts_batch
    (C : Ctx) (reg : Reg) (force watch : Bool) (fs : Fs) (fuel : Nat)
    (args : List String) (st : St) (a : String)
    (hne : args ≠ [])
    (hcyc : HasCyclicDep reg = false)
    (hfind : args.find? (fun x => (lookupTask reg x).isNone) = some a) :
    Run C reg force watch fs fuel args st =
      (emit (Ev.log "task: (existing tasks help)")
        (emit (Ev.log ("task not found: " ++ a))
          (emit Ev.cycleCheck st)), .notFound a) := by
  cases args with
  | nil => exact absurd rfl hne
  | cons x xs =>
    unfold Run
    simp only [List.isEmpty_cons]
    rw [hcyc]
    simp only [Bool.false_eq_true, if_false]
    rw [hfind]

/-- Witness for the amended C7 at the concrete batch `["good", "bad"]`. -/
theorem run_notfound_aborts_batch_witness :
    (["good", "bad"] : List String) ≠ [] ∧
    HasCyclicDep reg7 = false ∧
    ["good", "bad"].find? (fun x => (lookupTask reg7 x).isNone) = some "bad" ∧
    Run idCtx reg7 false false fsEmpty 3 ["good", "bad"] st0 =
      (emit (Ev.log "task: (existing tasks help)")
        (emit (Ev.log ("task not found: " ++ "bad"))
          (emit Ev.cycleCheck st0)), .notFound "bad") :=
  ⟨by decide, by decide, by decide,
    run_notfound_aborts_batch idCtx reg7 false false fsEmpty 3 ["good", "bad"]
      st0 "bad" (by decide) (by decide) (by decide)⟩

/-! ## C8: cyclic dependencies abort before execution -/

/-- C8: when the registry has a cyclic dependency, `Run` performs the
global cycle check once — a single `cycleCheck` marker, preceded at most
by the default-argument log line — and terminates fatally before any
`RunTask` call and before any side effect: the outcome is `fatalCyclic`,
the process environment is untouched, and no task, command, spawn or
environment event was appended. -/
theorem run_cyclic_aborts_before_execution
    (C : Ctx) (reg : Reg) (force watch : Bool) (fs : Fs) (fuel : Nat)
    (args : List String) (st : St)
    (hcyc : HasCyclicDep reg = true) :
    (Run C reg force watch fs fuel args st).2 = .fatalCyclic ∧
    ((Run C reg force watch fs fuel args st).1).penv = st.penv ∧
    ∃ pre, ((Run C reg force watch fs fuel args st).1).trace =
      st.trace ++ pre ++ [Ev.cycleCheck] ∧ ∀ e ∈ pre, ∃ m, e = Ev.log m := by
  unfold Run
  cases hargs : args.isEmpty
  · dsimp only
    rw [if_pos hcyc]
    refine ⟨rfl, rfl, [], by simp [emit], by simp⟩
  · dsimp only
    rw [if_pos hcyc]
    refine ⟨rfl, rfl, [Ev.log "task: No argument given, trying default task"],
      by simp [emit], ?_⟩
    intro e he
    simp only [List.mem_singleton] at he
    exact ⟨_, he⟩

/-- Registry for the C8 witness: a task depending on itself. -/
def reg8 : Reg := [("a", { Task.default with Deps := ["a"] })]

/-- Witness for C8 at the self-cyclic registry `reg8`. -/
theorem run_cyclic_aborts_before_execution_witness :
    HasCyclicDep reg8 = true ∧
    ((Run idCtx reg8 false false fsEmpty 3 ["a"] st0).2 = .fatalCyclic ∧
    ((Run idCtx reg8 false false fsEmpty 3 ["a"] st0).1).penv = st0.penv ∧
    ∃ pre, ((Run idCtx reg8 false false fsEmpty 3 ["a"] st0).1).trace =
      st0.trace ++ pre ++ [Ev.cycleCheck] ∧ ∀ e ∈ pre, ∃ m, e = Ev.log m) :=
  ⟨by decide,
    run_cyclic_aborts_before_execution idCtx reg8 false false fsEmpty 3 ["a"]
      st0 (by decide)⟩

end TaskRunner
